import Mathlib

/-!
Verification of the movie-catalog storage layer
(`movie_storage_sql.py`) and the derived query operations (`main.py`).

The SQLite database is modelled as an explicit state (`DB`): a list of user
rows and a list of movie rows, plus the AUTOINCREMENT counter for user ids.
SQL `REAL` ratings are modelled as rationals, `TEXT` as `String` (SQLite's
BINARY collation on UTF-8 text coincides with the codepoint-lexicographic
order on `String`), and nullable columns as `Option`.  Each storage
function becomes a pure function from the current `DB` to its result and
the successor `DB`; Python exceptions are modelled with `Except` in the
`...E` variants, where an explicit `fail` flag plays the role of an
environmental storage failure (locked file, I/O error) arising during the
operation's storage access.
-/

namespace MovieProject

/-- One row of the `movies` table (the surrogate `id` column is never read
by any operation and is omitted).  `UNIQUE(user_id, title)` is a schema
constraint, stated separately as `DBInv`. -/
structure MovieRow where
  user_id : Nat
  title : String
  year : Int
  rating : Rat
  poster_url : Option String
  note : Option String
deriving DecidableEq, Repr

/-- One row of the `users` table. -/
structure UserRow where
  id : Nat
  name : String
deriving DecidableEq, Repr

/-- The database state. `nextUserId` models the AUTOINCREMENT counter of
the `users` table. -/
structure DB where
  users : List UserRow
  nextUserId : Nat
  movies : List MovieRow
deriving DecidableEq, Repr

/-- The `UNIQUE(user_id, title)` constraint of the `movies` schema: no two
rows agree on both the user id and the title. -/
def DBInv (db : DB) : Prop :=
  db.movies.Pairwise (fun r s => ¬(r.user_id = s.user_id ∧ r.title = s.title))

instance (db : DB) : Decidable (DBInv db) := by
  unfold DBInv; infer_instance

/-- The `UNIQUE` constraint on `users.name`. -/
def UsersInv (db : DB) : Prop :=
  db.users.Pairwise (fun a b => a.name ≠ b.name)

instance (db : DB) : Decidable (UsersInv db) := by
  unfold UsersInv; infer_instance

/-- Python's whitespace test used by `str.strip()` (ASCII part; Lean's
`Char.isWhitespace` covers space, tab, CR, LF, and we add the two further
ASCII space characters Python strips). -/
def pyIsSpace (c : Char) : Bool :=
  c.isWhitespace || c == '\x0b' || c == '\x0c'

/-- `str.strip()` on the underlying character list: drop whitespace from
the front, then from the back. -/
def stripList (l : List Char) : List Char :=
  ((l.dropWhile pyIsSpace).reverse.dropWhile pyIsSpace).reverse

/-- Python's `name.strip()`. -/
def pyStrip (s : String) : String := ⟨stripList s.data⟩

-- ------------- Users -------------

/-- `list_users()`: `SELECT id, name FROM users ORDER BY name`. -/
def list_users (db : DB) : List (Nat × String) :=
  (db.users.mergeSort (fun a b => decide (a.name ≤ b.name))).map
    (fun u => (u.id, u.name))

/-- `get_or_create_user(name)`: strip the name, reject the empty result,
look the name up by exact match, insert it when absent, and return the id
found by the final `SELECT`. -/
def get_or_create_user (db : DB) (name : String) : Except String (Nat × DB) :=
  let name := pyStrip name
  if name = "" then .error "User name must not be empty."
  else
    match db.users.find? (fun u => u.name == name) with
    | some row => .ok (row.id, db)
    | none =>
      let db' : DB :=
        { db with users := db.users ++ [⟨db.nextUserId, name⟩],
                  nextUserId := db.nextUserId + 1 }
      match db'.users.find? (fun u => u.name == name) with
      | some row => .ok (row.id, db')
      | none => .error "row is None"

-- ------------- Movies (per user) -------------

/-- The `WHERE user_id = :user_id AND title = :title` predicate shared by
the movie statements. -/
def movieMatches (user_id : Nat) (title : String) (r : MovieRow) : Bool :=
  r.user_id == user_id && r.title == title

/-- The record a `list_movies` row is mapped to:
`{"year": ..., "rating": ..., "poster_url": ..., "note": ...}`. -/
structure MovieData where
  year : Int
  rating : Rat
  poster_url : Option String
  note : Option String
deriving DecidableEq, Repr

/-- The rows of one user's partition
(`SELECT ... FROM movies WHERE user_id = :user_id`). -/
def userRows (db : DB) (user_id : Nat) : List MovieRow :=
  db.movies.filter (fun r => r.user_id == user_id)

/-- The user's rows after `ORDER BY title`, each projected to its
`(title, data)` pair. -/
def sortedUserRows (db : DB) (user_id : Nat) : List (String × MovieData) :=
  ((userRows db user_id).mergeSort (fun a b => decide (a.title ≤ b.title))).map
    (fun r => (r.title, ⟨r.year, r.rating, r.poster_url, r.note⟩))

/-- One step of building a Python dict: assigning to an existing key
replaces its value in place, a new key is appended at the end. -/
def insertDict (acc : List (String × MovieData)) (t : String) (d : MovieData) :
    List (String × MovieData) :=
  if acc.any (fun p => p.1 == t) then
    acc.map (fun p => if p.1 == t then (t, d) else p)
  else acc ++ [(t, d)]

/-- The dict comprehension `{row[0]: {...} for row in rows}`: first
occurrence fixes the position of a key, the last assignment fixes its
value. -/
def dictOfRows (rows : List (String × MovieData)) : List (String × MovieData) :=
  rows.foldl (fun acc r => insertDict acc r.1 r.2) []

/-- `list_movies(user_id)`: fetch the user's rows ordered by title and
build the title-keyed dict. -/
def list_movies (db : DB) (user_id : Nat) : List (String × MovieData) :=
  dictOfRows (sortedUserRows db user_id)

/-- `add_movie(...)`: the `INSERT` succeeds unless the
`UNIQUE(user_id, title)` constraint is violated; the raised exception is
caught and turned into `False`, leaving the database unchanged. -/
def add_movie (db : DB) (user_id : Nat) (title : String) (year : Int)
    (rating : Rat) (poster_url : Option String) (note : Option String) :
    Bool × DB :=
  if db.movies.any (movieMatches user_id title) then
    (false, db)
  else
    (true, { db with
      movies := db.movies ++ [⟨user_id, title, year, rating, poster_url, note⟩] })

/-- `delete_movie(user_id, title)`: `DELETE` the matching rows and report
`rowcount > 0`. -/
def delete_movie (db : DB) (user_id : Nat) (title : String) : Bool × DB :=
  (decide (0 < db.movies.countP (movieMatches user_id title)),
   { db with movies := db.movies.filter (fun r => !(movieMatches user_id title r)) })

/-- `update_movie(user_id, title, rating, note)`: return `False` when
neither field is supplied; otherwise `UPDATE` exactly the supplied fields
of the matching rows and report `rowcount > 0`. -/
def update_movie (db : DB) (user_id : Nat) (title : String)
    (rating : Option Rat) (note : Option String) : Bool × DB :=
  match rating, note with
  | none, none => (false, db)
  | _, _ =>
    (decide (0 < db.movies.countP (movieMatches user_id title)),
     { db with movies := db.movies.map (fun r =>
        if movieMatches user_id title r then
          { r with rating := match rating with | some x => x | none => r.rating,
                   note := match note with | some v => some v | none => r.note }
        else r) })

-- ------------- Exception-aware variants -------------

/-- `add_movie` with the surrounding storage environment made explicit:
`fail = true` means the storage engine raises during the `INSERT` or
`COMMIT`.  The function body is wrapped in `try/except Exception`, so
every failure — environmental or the uniqueness violation — becomes the
return value `False`; no exception escapes. -/
def add_movieE (db : DB) (user_id : Nat) (title : String) (year : Int)
    (rating : Rat) (poster_url : Option String) (note : Option String)
    (fail : Bool) : Except String (Bool × DB) :=
  if fail then .ok (false, db)
  else .ok (add_movie db user_id title year rating poster_url note)

/-- `delete_movie` with the storage environment explicit: its body has no
`try/except`, so a storage failure during the `DELETE` propagates to the
caller as an exception. -/
def delete_movieE (db : DB) (user_id : Nat) (title : String) (fail : Bool) :
    Except String (Bool × DB) :=
  if fail then .error "OperationalError"
  else .ok (delete_movie db user_id title)

/-- `update_movie` with the storage environment explicit: the
early-return path touches no storage; on the `UPDATE` path there is no
`try/except`, so a storage failure propagates as an exception. -/
def update_movieE (db : DB) (user_id : Nat) (title : String)
    (rating : Option Rat) (note : Option String) (fail : Bool) :
    Except String (Bool × DB) :=
  match rating, note with
  | none, none => .ok (false, db)
  | _, _ =>
    if fail then .error "OperationalError"
    else .ok (update_movie db user_id title rating note)

-- ------------- Derived query operations (main.py) -------------

/-- The list `[data["rating"] for data in movies.values()]`. -/
def ratingsOf (movies : List (String × MovieData)) : List Rat :=
  movies.map (fun p => p.2.rating)

/-- Python's `max` on a non-empty list (junk value `0` on `[]`, which the
caller never passes). -/
def listMax : List Rat → Rat
  | [] => 0
  | x :: xs => xs.foldl max x

/-- Python's `min` on a non-empty list (junk value `0` on `[]`). -/
def listMin : List Rat → Rat
  | [] => 0
  | x :: xs => xs.foldl min x

/-- CPython's `statistics.median`: sort, then take the middle element for
an odd count and the average of the two middle elements for an even
count. -/
def pyMedian (data : List Rat) : Rat :=
  let s := data.mergeSort (fun a b => decide (a ≤ b))
  let n := s.length
  if n % 2 = 1 then s.getD (n / 2) 0
  else (s.getD (n / 2 - 1) 0 + s.getD (n / 2) 0) / 2

/-- The aggregate values printed by `get_stats_movies`. -/
structure Stats where
  total : Nat
  avg_ratings : Rat
  median : Rat
  best_rating : Rat
  worst_rating : Rat
  best_movies : List String
  worst_movies : List String
deriving DecidableEq, Repr

/-- The computation inside `get_stats_movies` on a non-empty movie
mapping (the caller special-cases the empty mapping before computing). -/
def get_stats_movies (movies : List (String × MovieData)) : Stats :=
  let ratings := ratingsOf movies
  let total := ratings.length
  let avg_ratings := ratings.foldl (· + ·) 0 / (total : Rat)
  let median := pyMedian ratings
  let best_rating := listMax ratings
  let worst_rating := listMin ratings
  { total := total
    avg_ratings := avg_ratings
    median := median
    best_rating := best_rating
    worst_rating := worst_rating
    best_movies := (movies.filter (fun p => p.2.rating == best_rating)).map (·.1)
    worst_movies := (movies.filter (fun p => p.2.rating == worst_rating)).map (·.1) }

/-- The sort inside `get_sorted_movies`:
`sorted(movies.items(), key=lambda item: item[1]["rating"], reverse=True)`.
Python's sort is stable, and `reverse=True` reverses the comparison, not
the list, so ties keep their input order; `mergeSort` with the reversed
comparison has exactly these properties. -/
def get_sorted_movies (movies : List (String × MovieData)) :
    List (String × MovieData) :=
  movies.mergeSort (fun a b => decide (b.2.rating ≤ a.2.rating))

/-- Does a movie survive the three `continue` tests of the filtering loop
in `filter_movies`? -/
def passesFilter (min_rating : Option Rat) (start_year end_year : Option Int)
    (d : MovieData) : Bool :=
  !(match min_rating with | some m => decide (d.rating < m) | none => false) &&
  !(match start_year with | some s => decide (d.year < s) | none => false) &&
  !(match end_year with | some e => decide (e < d.year) | none => false)

/-- The filtering loop of `filter_movies`: walk the mapping in order and
append `(title, year, rating)` for every movie that passes all three
optional bounds. -/
def filter_movies (movies : List (String × MovieData)) (min_rating : Option Rat)
    (start_year end_year : Option Int) : List (String × Int × Rat) :=
  movies.foldl (fun results p =>
    if passesFilter min_rating start_year end_year p.2 then
      results ++ [(p.1, p.2.year, p.2.rating)]
    else results) []

-- ------------- Order helper lemmas -------------

theorem titleLe_trans (a b c : MovieRow) (h1 : decide (a.title ≤ b.title) = true)
    (h2 : decide (b.title ≤ c.title) = true) : decide (a.title ≤ c.title) = true := by
  simp only [decide_eq_true_eq] at *
  exact le_trans h1 h2

theorem titleLe_total (a b : MovieRow) :
    (decide (a.title ≤ b.title) || decide (b.title ≤ a.title)) = true := by
  rcases le_total a.title b.title with h | h <;> simp [h]

theorem nameLe_trans (a b c : UserRow) (h1 : decide (a.name ≤ b.name) = true)
    (h2 : decide (b.name ≤ c.name) = true) : decide (a.name ≤ c.name) = true := by
  simp only [decide_eq_true_eq] at *
  exact le_trans h1 h2

theorem nameLe_total (a b : UserRow) :
    (decide (a.name ≤ b.name) || decide (b.name ≤ a.name)) = true := by
  rcases le_total a.name b.name with h | h <;> simp [h]

theorem ratLe_trans (a b c : Rat) (h1 : decide (a ≤ b) = true)
    (h2 : decide (b ≤ c) = true) : decide (a ≤ c) = true := by
  simp only [decide_eq_true_eq] at *
  exact le_trans h1 h2

theorem ratLe_total (a b : Rat) : (decide (a ≤ b) || decide (b ≤ a)) = true := by
  rcases le_total a b with h | h <;> simp [h]

theorem ratDesc_trans (a b c : String × MovieData)
    (h1 : decide (b.2.rating ≤ a.2.rating) = true)
    (h2 : decide (c.2.rating ≤ b.2.rating) = true) :
    decide (c.2.rating ≤ a.2.rating) = true := by
  simp only [decide_eq_true_eq] at *
  exact le_trans h2 h1

theorem ratDesc_total (a b : String × MovieData) :
    (decide (b.2.rating ≤ a.2.rating) || decide (a.2.rating ≤ b.2.rating)) = true := by
  rcases le_total a.2.rating b.2.rating with h | h <;> simp [h]

-- ------------- Claim C2 -------------

/-- Claim C2: adding a movie whose exact `(user_id, title)` pair already
exists fails with `False` (no exception reaches the caller, for any
storage outcome) and leaves the stored movie set unchanged, while adding
the same title under a different user id with no such movie succeeds. -/
theorem add_movie_unique_per_user (db : DB) (u u' : Nat) (t : String)
    (y y' : Int) (r r' : Rat) (p p' n n' : Option String) (fail : Bool)
    (hdup : ∃ row ∈ db.movies, movieMatches u t row = true) :
    add_movie db u t y r p n = (false, db) ∧
    add_movieE db u t y r p n fail = .ok (false, db) ∧
    (u' ≠ u → (∀ row ∈ db.movies, movieMatches u' t row = false) →
      (add_movie db u' t y' r' p' n').1 = true) := by
  have hany : db.movies.any (movieMatches u t) = true := List.any_eq_true.mpr hdup
  have h1 : add_movie db u t y r p n = (false, db) := by
    simp [add_movie, hany]
  refine ⟨h1, ?_, ?_⟩
  · cases fail <;> simp [add_movieE, h1]
  · intro _ hnone
    have hany' : db.movies.any (movieMatches u' t) = false := by
      simp only [List.any_eq_false]
      intro x hx
      simp [hnone x hx]
    simp [add_movie, hany']

/-- Witness for C2 at a one-movie database. -/
theorem add_movie_unique_per_user_witness :
    add_movie ⟨[], 1, [⟨1, "Inception", 2010, 8, none, none⟩]⟩ 1 "Inception"
        2010 8 none none
      = (false, ⟨[], 1, [⟨1, "Inception", 2010, 8, none, none⟩]⟩) ∧
    (add_movie ⟨[], 1, [⟨1, "Inception", 2010, 8, none, none⟩]⟩ 2 "Inception"
        2010 8 none none).1 = true := by
  have h := add_movie_unique_per_user ⟨[], 1, [⟨1, "Inception", 2010, 8, none, none⟩]⟩
    1 2 "Inception" 2010 2010 8 8 none none none none false
    ⟨⟨1, "Inception", 2010, 8, none, none⟩, by simp, by decide⟩
  exact ⟨h.1, h.2.2 (by decide) (by decide)⟩

-- ------------- Claim C6 -------------

/-- Claim C6 counterexample: a storage failure during `delete_movie`
escapes to the caller as an exception instead of becoming a boolean
(there is no `try/except` in `delete_movie`). -/
theorem delete_movie_error_escapes :
    delete_movieE ⟨[], 1, []⟩ 1 "Inception" true = .error "OperationalError" := rfl

/-- Claim C6 (amended): `add_movie` converts every storage-layer failure
to a boolean at the store boundary, but `delete_movie` and `update_movie`
have no exception handler, so a storage failure there propagates to the
caller (`update_movie` only reaches storage when at least one field is
supplied). -/
theorem store_boundary_error_policy (db : DB) (u : Nat) (t : String)
    (y : Int) (r : Rat) (p n : Option String) (ro : Option Rat)
    (no : Option String) (fail : Bool) (hsome : ro ≠ none ∨ no ≠ none) :
    (∃ res, add_movieE db u t y r p n fail = .ok res) ∧
    (fail = true → delete_movieE db u t fail = .error "OperationalError") ∧
    (fail = true → update_movieE db u t ro no fail = .error "OperationalError") := by
  refine ⟨?_, ?_, ?_⟩
  · cases fail <;> exact ⟨_, rfl⟩
  · intro hf; subst hf; rfl
  · intro hf; subst hf
    match ro, no, hsome with
    | none, none, h => rcases h with h | h <;> simp at h
    | some x, _, _ => rfl
    | none, some v, _ => rfl

/-- Witness for the amended C6 at concrete inputs. -/
theorem store_boundary_error_policy_witness :
    (∃ res, add_movieE ⟨[], 1, []⟩ 1 "T" 2000 5 none none true = .ok res) ∧
    delete_movieE ⟨[], 1, []⟩ 1 "T" true = .error "OperationalError" ∧
    update_movieE ⟨[], 1, []⟩ 1 "T" (some 5) none true = .error "OperationalError" := by
  have h := store_boundary_error_policy ⟨[], 1, []⟩ 1 "T" 2000 5 none none
    (some 5) none true (Or.inl (by simp))
  exact ⟨h.1, h.2.1 rfl, h.2.2 rfl⟩

-- ------------- Association-list and dict helper lemmas -------------

theorem lookup_eq_none_of_forall {l : List (String × MovieData)} {t : String}
    (h : ∀ p ∈ l, p.1 ≠ t) : List.lookup t l = none := by
  induction l with
  | nil => rfl
  | cons a as ih =>
    obtain ⟨k, v⟩ := a
    have ha : k ≠ t := h (k, v) (List.mem_cons_self _ _)
    have hb : (t == k) = false := by simp [Ne.symm ha]
    simp only [List.lookup, hb]
    exact ih (fun p hp => h p (List.mem_cons_of_mem _ hp))

theorem lookup_eq_some_of_mem {l : List (String × MovieData)} {t : String}
    {d : MovieData} (hnd : l.Pairwise (fun p q => p.1 ≠ q.1))
    (hm : (t, d) ∈ l) : List.lookup t l = some d := by
  induction l with
  | nil => simp at hm
  | cons a as ih =>
    obtain ⟨k, v⟩ := a
    rcases List.mem_cons.mp hm with h | h
    · obtain ⟨rfl, rfl⟩ := Prod.mk.injEq .. ▸ h
      simp [List.lookup]
    · have hk : k ≠ t := by
        simpa using (List.pairwise_cons.mp hnd).1 (t, d) h
      have hb : (t == k) = false := by simp [Ne.symm hk]
      simp only [List.lookup, hb]
      exact ih (List.pairwise_cons.mp hnd).2 h

theorem mem_insertDict_key {acc : List (String × MovieData)} {t : String}
    {d : MovieData} {p : String × MovieData} (hp : p ∈ insertDict acc t d) :
    p.1 = t ∨ ∃ q ∈ acc, p.1 = q.1 := by
  unfold insertDict at hp
  split at hp
  · rcases List.mem_map.mp hp with ⟨q, hq, hpq⟩
    by_cases h : (q.1 == t) = true
    · left
      rw [if_pos h] at hpq
      simp [← hpq]
    · right
      rw [if_neg h] at hpq
      exact ⟨q, hq, by rw [← hpq]⟩
  · rcases List.mem_append.mp hp with h | h
    · exact Or.inr ⟨p, h, rfl⟩
    · left
      have : p = (t, d) := by simpa using h
      simp [this]

theorem mem_foldl_insertDict_key :
    ∀ (rows acc : List (String × MovieData)) (p : String × MovieData),
    p ∈ rows.foldl (fun acc r => insertDict acc r.1 r.2) acc →
    (∃ q ∈ acc, p.1 = q.1) ∨ ∃ q ∈ rows, p.1 = q.1 := by
  intro rows
  induction rows with
  | nil => intro acc p hp; exact Or.inl ⟨p, by simpa using hp, rfl⟩
  | cons r rest ih =>
    intro acc p hp
    rw [List.foldl_cons] at hp
    rcases ih (insertDict acc r.1 r.2) p hp with ⟨q, hq, hpq⟩ | ⟨q, hq, hpq⟩
    · rcases mem_insertDict_key hq with h | ⟨s, hs, hqs⟩
      · exact Or.inr ⟨r, List.mem_cons_self _ _, by rw [hpq, h]⟩
      · exact Or.inl ⟨s, hs, by rw [hpq, hqs]⟩
    · exact Or.inr ⟨q, List.mem_cons_of_mem _ hq, hpq⟩

theorem dictOfRows_key_sub {rows : List (String × MovieData)}
    {p : String × MovieData} (hp : p ∈ dictOfRows rows) :
    ∃ q ∈ rows, p.1 = q.1 := by
  rcases mem_foldl_insertDict_key rows [] p hp with ⟨q, hq, _⟩ | h
  · simp at hq
  · exact h

theorem foldl_insertDict_eq :
    ∀ (rows acc : List (String × MovieData)),
    (∀ q ∈ acc, ∀ r ∈ rows, q.1 ≠ r.1) →
    rows.Pairwise (fun p q => p.1 ≠ q.1) →
    rows.foldl (fun acc r => insertDict acc r.1 r.2) acc = acc ++ rows := by
  intro rows
  induction rows with
  | nil => intro acc _ _; simp
  | cons r rest ih =>
    intro acc hdisj hpw
    have hnone : acc.any (fun p => p.1 == r.1) = false := by
      simp only [List.any_eq_false]
      intro q hq
      simpa using hdisj q hq r (List.mem_cons_self _ _)
    have hstep : insertDict acc r.1 r.2 = acc ++ [r] := by
      simp [insertDict, hnone]
    rw [List.foldl_cons, hstep,
      ih (acc ++ [r]) ?_ (List.pairwise_cons.mp hpw).2]
    · simp
    · intro q hq s hs
      rcases List.mem_append.mp hq with h | h
      · exact hdisj q h s (List.mem_cons_of_mem _ hs)
      · have : q = r := by simpa using h
        subst this
        exact (List.pairwise_cons.mp hpw).1 s hs

theorem dictOfRows_eq_self {rows : List (String × MovieData)}
    (hpw : rows.Pairwise (fun p q => p.1 ≠ q.1)) : dictOfRows rows = rows := by
  have h := foldl_insertDict_eq rows [] (by simp) hpw
  simpa [dictOfRows] using h

-- ------------- Structure of `list_movies` -------------

theorem userRows_pairwise_ne (db : DB) (u : Nat) (hinv : DBInv db) :
    (userRows db u).Pairwise (fun r s => r.title ≠ s.title) := by
  have hpw : (userRows db u).Pairwise
      (fun r s => ¬(r.user_id = s.user_id ∧ r.title = s.title)) :=
    hinv.sublist (List.filter_sublist _)
  refine hpw.imp_of_mem ?_
  intro a b ha hb hab
  have hau : a.user_id = u := by simpa using (List.mem_filter.mp ha).2
  have hbu : b.user_id = u := by simpa using (List.mem_filter.mp hb).2
  intro hteq
  exact hab ⟨hau.trans hbu.symm, hteq⟩

theorem sortedUserRows_pairwise (db : DB) (u : Nat) (hinv : DBInv db) :
    (sortedUserRows db u).Pairwise (fun a b => a.1 < b.1) := by
  unfold sortedUserRows
  rw [List.pairwise_map]
  have hle := List.sorted_mergeSort titleLe_trans titleLe_total (userRows db u)
  have hperm := List.mergeSort_perm (userRows db u)
    (fun a b => decide (a.title ≤ b.title))
  have hne : (List.mergeSort (userRows db u)
      (fun a b => decide (a.title ≤ b.title))).Pairwise
      (fun r s => r.title ≠ s.title) :=
    (userRows_pairwise_ne db u hinv).perm hperm.symm (fun h => Ne.symm h)
  refine (hle.and hne).imp ?_
  rintro a b ⟨h1, h2⟩
  exact lt_of_le_of_ne (by simpa using h1) h2

theorem list_movies_eq (db : DB) (u : Nat) (hinv : DBInv db) :
    list_movies db u = sortedUserRows db u := by
  unfold list_movies
  exact dictOfRows_eq_self
    ((sortedUserRows_pairwise db u hinv).imp (fun h => ne_of_lt h))

theorem list_movies_pairwise (db : DB) (u : Nat) (hinv : DBInv db) :
    (list_movies db u).Pairwise (fun a b => a.1 < b.1) := by
  rw [list_movies_eq db u hinv]
  exact sortedUserRows_pairwise db u hinv

-- ------------- Claim C4 -------------

/-- Claim C4: `update_movie` with only a rating changes only the rating
of the matching movie and leaves every other field and every other row
unchanged; with neither rating nor note it returns `False` and leaves the
database untouched; and no call ever modifies any row's title or year. -/
theorem update_movie_frame (db : DB) (u : Nat) (t : String) (r : Rat)
    (ro : Option Rat) (no : Option String) :
    update_movie db u t none none = (false, db) ∧
    (∀ (i : Nat) (row row' : MovieRow), db.movies[i]? = some row →
      ((update_movie db u t (some r) none).2).movies[i]? = some row' →
      row'.title = row.title ∧ row'.year = row.year ∧
      row'.poster_url = row.poster_url ∧ row'.note = row.note ∧
      (movieMatches u t row = true → row'.rating = r) ∧
      (movieMatches u t row = false → row' = row)) ∧
    (∀ (i : Nat) (row row' : MovieRow), db.movies[i]? = some row →
      ((update_movie db u t ro no).2).movies[i]? = some row' →
      row'.title = row.title ∧ row'.year = row.year) := by
  refine ⟨rfl, ?_, ?_⟩
  · intro i row row' hrow hrow'
    simp only [update_movie, List.getElem?_map, hrow, Option.map_some'] at hrow'
    obtain rfl := Option.some.inj hrow'
    by_cases hm : movieMatches u t row = true
    · simp [hm]
    · simp [hm]
  · intro i row row' hrow hrow'
    match ro, no with
    | none, none =>
      simp only [update_movie] at hrow'
      rw [hrow] at hrow'
      obtain rfl := Option.some.inj hrow'
      exact ⟨rfl, rfl⟩
    | some x, no =>
      simp only [update_movie, List.getElem?_map, hrow, Option.map_some'] at hrow'
      obtain rfl := Option.some.inj hrow'
      by_cases hm : movieMatches u t row = true <;> simp [hm]
    | none, some v =>
      simp only [update_movie, List.getElem?_map, hrow, Option.map_some'] at hrow'
      obtain rfl := Option.some.inj hrow'
      by_cases hm : movieMatches u t row = true <;> simp [hm]

/-- Witness for C4 on a two-movie database. -/
theorem update_movie_frame_witness :
    update_movie ⟨[], 1, [⟨1, "T", 2000, 5, none, some "n"⟩,
        ⟨1, "U", 2001, 6, none, none⟩]⟩ 1 "T" none none
      = (false, ⟨[], 1, [⟨1, "T", 2000, 5, none, some "n"⟩,
        ⟨1, "U", 2001, 6, none, none⟩]⟩) ∧
    (⟨1, "T", 2000, 8, none, some "n"⟩ : MovieRow).year
      = (⟨1, "T", 2000, 5, none, some "n"⟩ : MovieRow).year ∧
    (movieMatches 1 "T" ⟨1, "T", 2000, 5, none, some "n"⟩ = true →
      (⟨1, "T", 2000, 8, none, some "n"⟩ : MovieRow).rating = 8) := by
  have h := update_movie_frame ⟨[], 1, [⟨1, "T", 2000, 5, none, some "n"⟩,
    ⟨1, "U", 2001, 6, none, none⟩]⟩ 1 "T" 8 none none
  have h2 := h.2.1 0 ⟨1, "T", 2000, 5, none, some "n"⟩
    ⟨1, "T", 2000, 8, none, some "n"⟩ (by decide) (by decide)
  exact ⟨h.1, h2.2.1, h2.2.2.2.2.1⟩

-- ------------- Claim C5 -------------

/-- Claim C5: `delete_movie` returns `True` exactly when at least one
stored row matches `(u, t)`; afterwards `list_movies u` no longer
contains the title; and when nothing matches it returns `False` with the
database unchanged. -/
theorem delete_movie_spec (db : DB) (u : Nat) (t : String) :
    ((delete_movie db u t).1 = true ↔
      ∃ row ∈ db.movies, movieMatches u t row = true) ∧
    List.lookup t (list_movies (delete_movie db u t).2 u) = none ∧
    ((∀ row ∈ db.movies, movieMatches u t row = false) →
      delete_movie db u t = (false, db)) := by
  refine ⟨?_, ?_, ?_⟩
  · simp only [delete_movie, decide_eq_true_eq]
    exact List.countP_pos_iff
  · apply lookup_eq_none_of_forall
    intro p hp
    obtain ⟨q, hq, hpq⟩ := dictOfRows_key_sub hp
    rcases List.mem_map.mp hq with ⟨rw, hrw, rfl⟩
    have hrw' : rw ∈ userRows (delete_movie db u t).2 u := List.mem_mergeSort.mp hrw
    have h1 := List.mem_filter.mp hrw'
    have h2 := List.mem_filter.mp h1.1
    have hmatch : movieMatches u t rw = false := by
      simpa using h2.2
    have huser : rw.user_id = u := by simpa using h1.2
    simp only [movieMatches, Bool.and_eq_false_iff, beq_eq_false_iff_ne] at hmatch
    rcases hmatch with h | h
    · exact absurd huser h
    · simpa [hpq] using h
  · intro hnone
    have hcz : db.movies.countP (movieMatches u t) = 0 :=
      List.countP_eq_zero.mpr (fun a ha => by simp [hnone a ha])
    have hfl : db.movies.filter (fun r => !(movieMatches u t r)) = db.movies :=
      List.filter_eq_self.mpr (fun a ha => by simp [hnone a ha])
    simp [delete_movie, hcz, hfl]

/-- Witness for C5 on a one-movie database. -/
theorem delete_movie_spec_witness :
    ((delete_movie ⟨[], 1, [⟨1, "Inception", 2010, 8, none, none⟩]⟩ 1
        "Inception").1 = true ↔
      ∃ row ∈ [(⟨1, "Inception", 2010, 8, none, none⟩ : MovieRow)],
        movieMatches 1 "Inception" row = true) ∧
    List.lookup "Inception"
      (list_movies (delete_movie ⟨[], 1,
        [⟨1, "Inception", 2010, 8, none, none⟩]⟩ 1 "Inception").2 1) = none :=
  ⟨(delete_movie_spec ⟨[], 1, [⟨1, "Inception", 2010, 8, none, none⟩]⟩ 1
      "Inception").1,
   (delete_movie_spec ⟨[], 1, [⟨1, "Inception", 2010, 8, none, none⟩]⟩ 1
      "Inception").2.1⟩

-- ------------- Claim C1 -------------

/-- Claim C1: immediately after a successful `add_movie`, `list_movies`
of that user is a title-sorted-ascending mapping that maps the new title
to exactly the added record; and `list_movies` of a user with no stored
movies (in particular a nonexistent user id) is the empty mapping. -/
theorem add_movie_then_list_movies (db db' : DB) (u : Nat) (t : String)
    (y : Int) (r : Rat) (p n : Option String) (hinv : DBInv db)
    (hadd : add_movie db u t y r p n = (true, db')) :
    List.lookup t (list_movies db' u) = some ⟨y, r, p, n⟩ ∧
    (list_movies db' u).Pairwise (fun a b => a.1 < b.1) ∧
    (∀ (db₀ : DB) (u₀ : Nat), (∀ row ∈ db₀.movies, row.user_id ≠ u₀) →
      list_movies db₀ u₀ = []) := by
  by_cases hany : db.movies.any (movieMatches u t) = true
  · simp [add_movie, hany] at hadd
  · have hnone : ∀ row ∈ db.movies, movieMatches u t row = false := by
      have h0 := List.any_eq_false.mp (Bool.not_eq_true _ ▸ hany)
      intro row hrow
      simpa using h0 row hrow
    have hdb' : db' = { db with
        movies := db.movies ++ [⟨u, t, y, r, p, n⟩] } := by
      simp [add_movie, hany] at hadd
      exact hadd.symm
    have hinv' : DBInv db' := by
      rw [hdb']
      unfold DBInv
      rw [List.pairwise_append]
      refine ⟨hinv, by simp, ?_⟩
      intro a ha b hb
      have hb' : b = ⟨u, t, y, r, p, n⟩ := by simpa using hb
      subst hb'
      have := hnone a ha
      simp only [movieMatches, Bool.and_eq_false_iff, beq_eq_false_iff_ne] at this
      rintro ⟨h1, h2⟩
      rcases this with h | h <;> simp_all
    refine ⟨?_, list_movies_pairwise db' u hinv', ?_⟩
    · rw [list_movies_eq db' u hinv']
      apply lookup_eq_some_of_mem
        ((sortedUserRows_pairwise db' u hinv').imp (fun h => ne_of_lt h))
      unfold sortedUserRows
      refine List.mem_map.mpr ⟨⟨u, t, y, r, p, n⟩, ?_, rfl⟩
      refine List.mem_mergeSort.mpr (List.mem_filter.mpr ⟨?_, by simp⟩)
      rw [hdb']
      simp
    · intro db₀ u₀ hno
      have hempty : userRows db₀ u₀ = [] := by
        unfold userRows
        rw [List.filter_eq_nil_iff]
        intro a ha
        simp [hno a ha]
      simp [list_movies, sortedUserRows, hempty, dictOfRows]

/-- Witness for C1: add "Inception" to an empty database and list it. -/
theorem add_movie_then_list_movies_witness :
    List.lookup "Inception"
      (list_movies ⟨[], 1, [⟨1, "Inception", 2010, 8, none, none⟩]⟩ 1)
      = some ⟨2010, 8, none, none⟩ :=
  (add_movie_then_list_movies ⟨[], 1, []⟩
    ⟨[], 1, [⟨1, "Inception", 2010, 8, none, none⟩]⟩ 1 "Inception" 2010 8
    none none (by decide) (by decide)).1

-- ------------- User-table helper lemmas -------------

theorem countP_name_eq_one {l : List UserRow} {nm : String}
    (hpw : l.Pairwise (fun a b => a.name ≠ b.name))
    (hx : ∃ x ∈ l, x.name = nm) :
    l.countP (fun u => u.name == nm) = 1 := by
  induction l with
  | nil => simp at hx
  | cons a as ih =>
    rcases hx with ⟨x, hx, hnm⟩
    rcases List.mem_cons.mp hx with rfl | hmem
    · have hz : as.countP (fun u => u.name == nm) = 0 := by
        apply List.countP_eq_zero.mpr
        intro b hb
        have hab := (List.pairwise_cons.mp hpw).1 b hb
        rw [hnm] at hab
        simp [Ne.symm hab]
      rw [List.countP_cons]
      simp [hnm, hz]
    · have ha : a.name ≠ nm := by
        have hax := (List.pairwise_cons.mp hpw).1 x hmem
        rw [hnm] at hax
        exact hax
      rw [List.countP_cons]
      simp [ha, ih (List.pairwise_cons.mp hpw).2 ⟨x, hmem, hnm⟩]

theorem list_users_countP (db : DB) (nm : String) :
    (list_users db).countP (fun pr => pr.2 == nm)
      = db.users.countP (fun u => u.name == nm) := by
  unfold list_users
  rw [List.countP_map]
  exact (List.mergeSort_perm db.users _).countP_eq _

-- ------------- Claim C3 -------------

/-- Claim C3: for a name whose stripped form is non-empty,
`get_or_create_user` called twice yields the same id both times, the
second call returns the database of the first call unchanged, and
`list_users` afterwards has exactly one entry carrying that name. -/
theorem get_or_create_user_idempotent (db : DB) (name : String)
    (hinv : UsersInv db) (hne : pyStrip name ≠ "") :
    ∃ uid db', get_or_create_user db name = .ok (uid, db') ∧
      get_or_create_user db' name = .ok (uid, db') ∧
      (list_users db').countP (fun pr => pr.2 == pyStrip name) = 1 := by
  match hfind : db.users.find? (fun u => u.name == pyStrip name) with
  | some row =>
    refine ⟨row.id, db, ?_, ?_, ?_⟩
    · simp [get_or_create_user, hne, hfind]
    · simp [get_or_create_user, hne, hfind]
    · rw [list_users_countP]
      refine countP_name_eq_one hinv
        ⟨row, List.mem_of_find?_eq_some hfind, ?_⟩
      simpa using List.find?_some hfind
  | none =>
    have hnomatch : ∀ x ∈ db.users, ¬(x.name == pyStrip name) = true :=
      List.find?_eq_none.mp hfind
    have happend :
        (db.users ++ [(⟨db.nextUserId, pyStrip name⟩ : UserRow)]).find?
          (fun u => u.name == pyStrip name)
          = some ⟨db.nextUserId, pyStrip name⟩ := by
      rw [List.find?_append, hfind]
      simp
    refine ⟨db.nextUserId,
      { db with users := db.users ++ [⟨db.nextUserId, pyStrip name⟩],
                nextUserId := db.nextUserId + 1 }, ?_, ?_, ?_⟩
    · simp only [get_or_create_user, hne, if_neg hne, hfind]
      rw [happend]
      simp
    · simp only [get_or_create_user, hne, if_neg hne]
      rw [happend]
      simp
    · rw [list_users_countP]
      have hz : db.users.countP (fun u => u.name == pyStrip name) = 0 :=
        List.countP_eq_zero.mpr hnomatch
      rw [List.countP_append, hz]
      simp

/-- Witness for C3: create "alice" in the empty database. -/
theorem get_or_create_user_idempotent_witness :
    ∃ uid db', get_or_create_user ⟨[], 1, []⟩ "alice" = .ok (uid, db') ∧
      get_or_create_user db' "alice" = .ok (uid, db') ∧
      (list_users db').countP (fun pr => pr.2 == pyStrip "alice") = 1 :=
  get_or_create_user_idempotent ⟨[], 1, []⟩ "alice" (by decide) (by decide)

-- ------------- Whitespace-stripping helper lemmas -------------

theorem dropWhile_eq_nil_of_all {l : List Char} {p : Char → Bool}
    (h : ∀ a ∈ l, p a) : l.dropWhile p = [] := by
  induction l with
  | nil => rfl
  | cons a t ih =>
    rw [List.dropWhile_cons, if_pos (h a (List.mem_cons_self _ _))]
    exact ih (fun b hb => h b (List.mem_cons_of_mem _ hb))

theorem dropWhile_append_of_ne_nil {l₁ l₂ : List Char} {p : Char → Bool}
    (h : l₁.dropWhile p ≠ []) :
    (l₁ ++ l₂).dropWhile p = l₁.dropWhile p ++ l₂ := by
  rw [List.dropWhile_append]
  simp [h]

theorem stripList_pad (w1 x w2 : List Char)
    (h1 : ∀ c ∈ w1, pyIsSpace c = true) (h2 : ∀ c ∈ w2, pyIsSpace c = true) :
    stripList (w1 ++ x ++ w2) = stripList x := by
  unfold stripList
  rw [List.append_assoc, List.dropWhile_append_of_pos h1]
  by_cases hx : x.dropWhile pyIsSpace = []
  · rw [List.dropWhile_append]
    simp [hx, dropWhile_eq_nil_of_all h2]
  · rw [dropWhile_append_of_ne_nil hx, List.reverse_append,
      List.dropWhile_append_of_pos
        (fun c hc => h2 c (List.mem_reverse.mp hc))]

-- ------------- Claim C10 -------------

/-- Claim C10: `get_or_create_user` strips surrounding whitespace before
lookup and insert, so padding a name with whitespace never changes the
call's outcome, and a freshly created user is stored (and listed) under
the stripped form of the name. -/
theorem get_or_create_user_strips (db : DB) (name w1 w2 : String)
    (h1 : ∀ c ∈ w1.data, pyIsSpace c = true)
    (h2 : ∀ c ∈ w2.data, pyIsSpace c = true) :
    get_or_create_user db (w1 ++ name ++ w2) = get_or_create_user db name ∧
    (pyStrip name ≠ "" → (∀ u ∈ db.users, u.name ≠ pyStrip name) →
      ∃ db', get_or_create_user db name = .ok (db.nextUserId, db') ∧
        (db.nextUserId, pyStrip name) ∈ list_users db') := by
  have hstrip : pyStrip (w1 ++ name ++ w2) = pyStrip name := by
    unfold pyStrip
    rw [String.data_append, String.data_append]
    exact congrArg String.mk (stripList_pad w1.data name.data w2.data h1 h2)
  constructor
  · unfold get_or_create_user
    rw [hstrip]
  · intro hne hno
    have hfind : db.users.find? (fun u => u.name == pyStrip name) = none :=
      List.find?_eq_none.mpr (fun x hx => by simp [hno x hx])
    have happend :
        (db.users ++ [(⟨db.nextUserId, pyStrip name⟩ : UserRow)]).find?
          (fun u => u.name == pyStrip name)
          = some ⟨db.nextUserId, pyStrip name⟩ := by
      rw [List.find?_append, hfind]
      simp
    refine ⟨(⟨db.users ++ [⟨db.nextUserId, pyStrip name⟩],
      db.nextUserId + 1, db.movies⟩ : DB), ?_, ?_⟩
    · simp only [get_or_create_user, if_neg hne, hfind]
      rw [happend]
    · unfold list_users
      refine List.mem_map.mpr ⟨⟨db.nextUserId, pyStrip name⟩, ?_, rfl⟩
      exact List.mem_mergeSort.mpr (by simp)

/-- Witness for C10: " alice " resolves like "alice", and "alice" is
stored stripped. -/
theorem get_or_create_user_strips_witness :
    get_or_create_user ⟨[], 1, []⟩ (" " ++ "alice" ++ " ")
      = get_or_create_user ⟨[], 1, []⟩ "alice" ∧
    ∃ db', get_or_create_user ⟨[], 1, []⟩ "alice" = .ok (1, db') ∧
      (1, pyStrip "alice") ∈ list_users db' := by
  have h := get_or_create_user_strips ⟨[], 1, []⟩ "alice" " " " "
    (by decide) (by decide)
  exact ⟨h.1, h.2 (by decide) (by simp)⟩

/-- Deciding strict title order through the character lists (the string
order itself does not reduce in the kernel). -/
theorem pairwise_title_lt_of_data {l : List (String × MovieData)}
    (h : l.Pairwise (fun a b => a.1.toList < b.1.toList)) :
    l.Pairwise (fun a b => a.1 < b.1) :=
  h.imp (fun hab => String.lt_iff_toList_lt.mpr hab)

-- ------------- Filter helper lemmas -------------

theorem filter_movies_eq (movies : List (String × MovieData)) (mr : Option Rat)
    (sy ey : Option Int) :
    filter_movies movies mr sy ey =
      (movies.filter (fun p => passesFilter mr sy ey p.2)).map
        (fun p => (p.1, p.2.year, p.2.rating)) := by
  suffices h : ∀ acc, movies.foldl (fun results p =>
      if passesFilter mr sy ey p.2 then
        results ++ [(p.1, p.2.year, p.2.rating)]
      else results) acc
      = acc ++ (movies.filter (fun p => passesFilter mr sy ey p.2)).map
          (fun p => (p.1, p.2.year, p.2.rating)) by
    simpa [filter_movies] using h []
  induction movies with
  | nil => simp
  | cons a as ih =>
    intro acc
    by_cases hp : passesFilter mr sy ey a.2 = true
    · simp [hp, List.filter_cons, ih]
    · simp [hp, List.filter_cons, ih]

theorem passesFilter_iff (mr : Option Rat) (sy ey : Option Int)
    (d : MovieData) :
    passesFilter mr sy ey d = true ↔
      (∀ m, mr = some m → m ≤ d.rating) ∧
      (∀ s, sy = some s → s ≤ d.year) ∧
      (∀ e, ey = some e → d.year ≤ e) := by
  unfold passesFilter
  rcases mr with _ | m <;> rcases sy with _ | s <;> rcases ey with _ | e <;>
    simp [not_lt, and_assoc]

-- ------------- Claim C9 -------------

/-- Claim C9: the filter returns exactly the movies satisfying every
active bound, each bound inclusive, an absent bound imposing no
constraint, combined by logical AND; with all bounds absent every movie
is returned; and the title-ascending order is preserved. -/
theorem filter_movies_spec (movies : List (String × MovieData))
    (mr : Option Rat) (sy ey : Option Int) :
    (∀ (ttl : String) (y : Int) (r : Rat),
      (ttl, y, r) ∈ filter_movies movies mr sy ey ↔
      ∃ d : MovieData, (ttl, d) ∈ movies ∧ d.year = y ∧ d.rating = r ∧
        (∀ m, mr = some m → m ≤ r) ∧ (∀ s, sy = some s → s ≤ y) ∧
        (∀ e, ey = some e → y ≤ e)) ∧
    filter_movies movies none none none
      = movies.map (fun p => (p.1, p.2.year, p.2.rating)) ∧
    (movies.Pairwise (fun a b => a.1 < b.1) →
      (filter_movies movies mr sy ey).Pairwise (fun a b => a.1 < b.1)) := by
  refine ⟨?_, ?_, ?_⟩
  · intro ttl y r
    rw [filter_movies_eq]
    constructor
    · intro h
      rcases List.mem_map.mp h with ⟨p, hp, hpe⟩
      rcases List.mem_filter.mp hp with ⟨hpm, hpass⟩
      obtain ⟨he1, he2, he3⟩ : p.1 = ttl ∧ p.2.year = y ∧ p.2.rating = r := by
        simpa [Prod.ext_iff] using hpe
      rcases (passesFilter_iff mr sy ey p.2).mp hpass with ⟨c1, c2, c3⟩
      refine ⟨p.2, ?_, he2, he3, ?_, ?_, ?_⟩
      · have : p = (ttl, p.2) := by
          rw [← he1]
        rw [← this]
        exact hpm
      · intro m hm
        rw [← he3]
        exact c1 m hm
      · intro s hs
        rw [← he2]
        exact c2 s hs
      · intro e he
        rw [← he2]
        exact c3 e he
    · rintro ⟨d, hd, rfl, rfl, c1, c2, c3⟩
      exact List.mem_map.mpr ⟨(ttl, d),
        List.mem_filter.mpr ⟨hd,
          (passesFilter_iff mr sy ey d).mpr ⟨c1, c2, c3⟩⟩, rfl⟩
  · rw [filter_movies_eq]
    have hall : ∀ p ∈ movies, passesFilter none none none p.2 = true :=
      fun p _ => rfl
    rw [List.filter_eq_self.mpr hall]
  · intro hpw
    rw [filter_movies_eq, List.pairwise_map]
    exact hpw.sublist (List.filter_sublist _)

/-- Witness for C9 on the mixed three-movie set. -/
theorem filter_movies_spec_witness :
    filter_movies [("X", ⟨1999, 5, none, none⟩), ("Y", ⟨2005, 8, none, none⟩),
        ("Z", ⟨2001, 8, none, none⟩)] none none none
      = [("X", 1999, 5), ("Y", 2005, 8), ("Z", 2001, 8)] ∧
    (filter_movies [("X", ⟨1999, 5, none, none⟩), ("Y", ⟨2005, 8, none, none⟩),
        ("Z", ⟨2001, 8, none, none⟩)] (some 7) (some 2000)
        (some 2020)).Pairwise (fun a b => a.1 < b.1) := by
  have h := filter_movies_spec [("X", ⟨1999, 5, none, none⟩),
    ("Y", ⟨2005, 8, none, none⟩), ("Z", ⟨2001, 8, none, none⟩)]
    (some 7) (some 2000) (some 2020)
  exact ⟨h.2.1, h.2.2 (pairwise_title_lt_of_data (by decide))⟩

-- ------------- Statistics helper lemmas -------------

theorem foldl_max_mem (a : Rat) (l : List Rat) : l.foldl max a ∈ a :: l := by
  induction l generalizing a with
  | nil => simp
  | cons x xs ih =>
    have h := ih (max a x)
    rw [List.foldl_cons]
    rcases List.mem_cons.mp h with h0 | h0
    · rw [h0]
      rcases max_choice a x with hm | hm <;> rw [hm] <;> simp
    · exact List.mem_cons_of_mem _ (List.mem_cons_of_mem _ h0)

theorem le_foldl_max (a : Rat) (l : List Rat) :
    a ≤ l.foldl max a ∧ ∀ r ∈ l, r ≤ l.foldl max a := by
  induction l generalizing a with
  | nil => simp
  | cons x xs ih =>
    have h := ih (max a x)
    refine ⟨le_trans (le_max_left a x) h.1, ?_⟩
    intro r hr
    rcases List.mem_cons.mp hr with rfl | hr
    · exact le_trans (le_max_right a r) h.1
    · exact h.2 r hr

theorem foldl_min_mem (a : Rat) (l : List Rat) : l.foldl min a ∈ a :: l := by
  induction l generalizing a with
  | nil => simp
  | cons x xs ih =>
    have h := ih (min a x)
    rw [List.foldl_cons]
    rcases List.mem_cons.mp h with h0 | h0
    · rw [h0]
      rcases min_choice a x with hm | hm <;> rw [hm] <;> simp
    · exact List.mem_cons_of_mem _ (List.mem_cons_of_mem _ h0)

theorem foldl_min_le (a : Rat) (l : List Rat) :
    l.foldl min a ≤ a ∧ ∀ r ∈ l, l.foldl min a ≤ r := by
  induction l generalizing a with
  | nil => simp
  | cons x xs ih =>
    have h := ih (min a x)
    refine ⟨le_trans h.1 (min_le_left a x), ?_⟩
    intro r hr
    rcases List.mem_cons.mp hr with rfl | hr
    · exact le_trans h.1 (min_le_right a r)
    · exact h.2 r hr

theorem listMax_spec {l : List Rat} (h : l ≠ []) :
    listMax l ∈ l ∧ ∀ r ∈ l, r ≤ listMax l := by
  match l with
  | x :: xs =>
    refine ⟨by simpa [listMax] using foldl_max_mem x xs, ?_⟩
    intro r hr
    rcases List.mem_cons.mp hr with rfl | hr
    · exact (le_foldl_max r xs).1
    · exact (le_foldl_max x xs).2 r hr

theorem listMin_spec {l : List Rat} (h : l ≠ []) :
    listMin l ∈ l ∧ ∀ r ∈ l, listMin l ≤ r := by
  match l with
  | x :: xs =>
    refine ⟨by simpa [listMin] using foldl_min_mem x xs, ?_⟩
    intro r hr
    rcases List.mem_cons.mp hr with rfl | hr
    · exact (foldl_min_le r xs).1
    · exact (foldl_min_le x xs).2 r hr

theorem mem_filter_rating_map_iff (movies : List (String × MovieData))
    (x : Rat) (ttl : String) :
    ttl ∈ ((movies.filter (fun p => p.2.rating == x)).map (·.1)) ↔
      ∃ d : MovieData, (ttl, d) ∈ movies ∧ d.rating = x := by
  constructor
  · intro h
    rcases List.mem_map.mp h with ⟨p, hp, rfl⟩
    rcases List.mem_filter.mp hp with ⟨hm, hr⟩
    exact ⟨p.2, hm, by simpa using hr⟩
  · rintro ⟨d, hd, rfl⟩
    exact List.mem_map.mpr ⟨(ttl, d), List.mem_filter.mpr ⟨hd, by simp⟩, rfl⟩

-- ------------- Claim C7 -------------

/-- Claim C7: on a non-empty movie set the statistics are the count, the
arithmetic mean, the standard statistical median (average of the two
middle values of a sorted copy for even counts), the attained maximum and
minimum rating, and the complete tie sets of titles attaining them; on
the three-movie example the values are exactly 7, 9, best A and C, and
worst B. -/
theorem get_stats_movies_spec (movies : List (String × MovieData))
    (hne : movies ≠ []) :
    (get_stats_movies movies).total = movies.length ∧
    (get_stats_movies movies).avg_ratings * (movies.length : Rat)
      = (ratingsOf movies).sum ∧
    ((get_stats_movies movies).best_rating ∈ ratingsOf movies ∧
      ∀ r ∈ ratingsOf movies, r ≤ (get_stats_movies movies).best_rating) ∧
    ((get_stats_movies movies).worst_rating ∈ ratingsOf movies ∧
      ∀ r ∈ ratingsOf movies, (get_stats_movies movies).worst_rating ≤ r) ∧
    (∀ ttl : String, ttl ∈ (get_stats_movies movies).best_movies ↔
      ∃ d : MovieData, (ttl, d) ∈ movies ∧
        d.rating = (get_stats_movies movies).best_rating) ∧
    (∀ ttl : String, ttl ∈ (get_stats_movies movies).worst_movies ↔
      ∃ d : MovieData, (ttl, d) ∈ movies ∧
        d.rating = (get_stats_movies movies).worst_rating) ∧
    (∃ s : List Rat, s.Perm (ratingsOf movies) ∧ s.Pairwise (· ≤ ·) ∧
      (get_stats_movies movies).median =
        if s.length % 2 = 1 then s.getD (s.length / 2) 0
        else (s.getD (s.length / 2 - 1) 0 + s.getD (s.length / 2) 0) / 2) ∧
    get_stats_movies [("A", ⟨2000, 9, none, none⟩), ("B", ⟨2000, 3, none, none⟩),
        ("C", ⟨2000, 9, none, none⟩)]
      = ⟨3, 7, 9, 9, 3, ["A", "C"], ["B"]⟩ := by
  have hrne : ratingsOf movies ≠ [] := by
    simpa [ratingsOf] using hne
  have hlen : (ratingsOf movies).length = movies.length := by
    simp [ratingsOf]
  refine ⟨by simp [get_stats_movies, ratingsOf], ?_, ?_, ?_, ?_, ?_, ?_, ?_⟩
  · have hpos : (0 : Rat) < (movies.length : Rat) := by
      have : 0 < movies.length := List.length_pos.mpr hne
      exact_mod_cast this
    show (ratingsOf movies).foldl (· + ·) 0 / ((ratingsOf movies).length : Rat)
        * (movies.length : Rat) = (ratingsOf movies).sum
    rw [hlen, div_mul_cancel₀ _ (ne_of_gt hpos)]
    exact List.sum_eq_foldl.symm
  · exact listMax_spec hrne
  · exact listMin_spec hrne
  · intro ttl
    exact mem_filter_rating_map_iff movies _ ttl
  · intro ttl
    exact mem_filter_rating_map_iff movies _ ttl
  · refine ⟨(ratingsOf movies).mergeSort (fun a b => decide (a ≤ b)),
      List.mergeSort_perm _ _, ?_, rfl⟩
    exact (List.sorted_mergeSort ratLe_trans ratLe_total
      (ratingsOf movies)).imp (fun h => by simpa using h)
  · simp [get_stats_movies, ratingsOf, pyMedian, listMax, listMin,
      List.mergeSort, List.merge]
    norm_num

/-- Witness for C7 at the three-movie example. -/
theorem get_stats_movies_spec_witness :
    (get_stats_movies [("A", ⟨2000, 9, none, none⟩), ("B", ⟨2000, 3, none, none⟩),
        ("C", ⟨2000, 9, none, none⟩)]).total
      = ([("A", (⟨2000, 9, none, none⟩ : MovieData)), ("B", ⟨2000, 3, none, none⟩),
        ("C", ⟨2000, 9, none, none⟩)]).length ∧
    get_stats_movies [("A", ⟨2000, 9, none, none⟩), ("B", ⟨2000, 3, none, none⟩),
        ("C", ⟨2000, 9, none, none⟩)]
      = ⟨3, 7, 9, 9, 3, ["A", "C"], ["B"]⟩ := by
  have h := get_stats_movies_spec [("A", ⟨2000, 9, none, none⟩),
    ("B", ⟨2000, 3, none, none⟩), ("C", ⟨2000, 9, none, none⟩)] (by simp)
  exact ⟨h.1, h.2.2.2.2.2.2.2⟩

-- ------------- Sort-stability helper lemmas -------------

theorem pair_sublist_of_pairwise {α : Type} {R : α → α → Prop} :
    ∀ {l : List α} {x y : α}, l.Pairwise R →
    (∀ a b, R a b → ¬R b a) → x ∈ l → y ∈ l → R x y →
    List.Sublist [x, y] l := by
  intro l
  induction l with
  | nil =>
    intro x y _ _ hx
    simp at hx
  | cons c t ih =>
    intro x y hpw hasymm hx hy hR
    rcases List.mem_cons.mp hx with rfl | hx'
    · rcases List.mem_cons.mp hy with rfl | hy'
      · exact absurd hR (hasymm _ _ hR)
      · exact (List.singleton_sublist.mpr hy').cons₂ x
    · rcases List.mem_cons.mp hy with rfl | hy'
      · have hcx := (List.pairwise_cons.mp hpw).1 x hx'
        exact absurd hcx (hasymm _ _ hR)
      · exact ((ih (List.pairwise_cons.mp hpw).2 hasymm hx' hy' hR).cons c)

theorem eq_of_pair_sublists_of_nodup {α : Type} :
    ∀ {l : List α} {x y : α}, l.Nodup → List.Sublist [x, y] l →
    List.Sublist [y, x] l → x = y := by
  intro l
  induction l with
  | nil =>
    intro x y _ h1
    cases h1
  | cons c t ih =>
    intro x y hnd h1 h2
    cases h1 with
    | cons _ h1' =>
      cases h2 with
      | cons _ h2' => exact ih (List.nodup_cons.mp hnd).2 h1' h2'
      | cons₂ _ h2' =>
        exact absurd (h1'.subset (by simp)) (List.nodup_cons.mp hnd).1
    | cons₂ _ h1' =>
      cases h2 with
      | cons _ h2' =>
        exact absurd (h2'.subset (by simp)) (List.nodup_cons.mp hnd).1
      | cons₂ _ h2' => rfl

theorem not_pair_self_sublist {α : Type} :
    ∀ {l : List α} {x : α}, l.Nodup → ¬List.Sublist [x, x] l := by
  intro l
  induction l with
  | nil =>
    intro x _ h
    cases h
  | cons c t ih =>
    intro x hnd h
    cases h with
    | cons _ h' => exact ih (List.nodup_cons.mp hnd).2 h'
    | cons₂ _ h' =>
      exact absurd (h'.subset (by simp)) (List.nodup_cons.mp hnd).1

-- ------------- Claim C8 -------------

/-- Claim C8: sorting a title-ascending mapping by rating yields a
permutation in descending rating order that is stable for ties, so
equal-rating movies stay in title-ascending order; on the three-movie
example the result is exactly `[Y, Z, X]`. -/
theorem get_sorted_movies_spec (movies : List (String × MovieData))
    (hpw : movies.Pairwise (fun a b => a.1 < b.1)) :
    (get_sorted_movies movies).Perm movies ∧
    (get_sorted_movies movies).Pairwise
      (fun a b => b.2.rating ≤ a.2.rating) ∧
    (get_sorted_movies movies).Pairwise
      (fun a b => a.2.rating = b.2.rating → a.1 < b.1) ∧
    get_sorted_movies [("X", ⟨1999, 5, none, none⟩), ("Y", ⟨2005, 8, none, none⟩),
        ("Z", ⟨2001, 8, none, none⟩)]
      = [("Y", ⟨2005, 8, none, none⟩), ("Z", ⟨2001, 8, none, none⟩),
        ("X", ⟨1999, 5, none, none⟩)] := by
  have hperm : (get_sorted_movies movies).Perm movies := List.mergeSort_perm _ _
  have hsorted := List.sorted_mergeSort ratDesc_trans ratDesc_total movies
  have hnd_movies : movies.Nodup :=
    hpw.imp (fun h he => by subst he; exact lt_irrefl _ h)
  have hnd : (get_sorted_movies movies).Nodup := hperm.nodup_iff.mpr hnd_movies
  have hasymm : ∀ a b : String × MovieData, a.1 < b.1 → ¬b.1 < a.1 :=
    fun a b h1 h2 => absurd (lt_trans h1 h2) (lt_irrefl _)
  refine ⟨hperm, hsorted.imp (fun h => by simpa using h), ?_, ?_⟩
  · rw [List.pairwise_iff_forall_sublist]
    intro a b hab heq
    have hmem_a : a ∈ movies := hperm.subset (hab.subset (by simp))
    have hmem_b : b ∈ movies := hperm.subset (hab.subset (by simp))
    rcases lt_trichotomy a.1 b.1 with h | h | h
    · exact h
    · by_cases hab' : a = b
      · subst hab'
        exact absurd hab (not_pair_self_sublist hnd)
      · have hsym : Symmetric
            (fun p q : String × MovieData => p.1 < q.1 ∨ q.1 < p.1) := by
          intro x y hxy
          exact hxy.symm
        have hor := (hpw.imp (fun hxy => Or.inl hxy)).forall hsym hmem_a hmem_b hab'
        rcases hor with h0 | h0
        · exact h0
        · rw [h] at h0
          exact absurd h0 (lt_irrefl _)
    · have hsub : List.Sublist [b, a] movies :=
        pair_sublist_of_pairwise hpw hasymm hmem_b hmem_a h
      have hle : (decide (a.2.rating ≤ b.2.rating)) = true := by
        simp [heq]
      have hstable := List.pair_sublist_mergeSort ratDesc_trans ratDesc_total
        hle hsub
      have hne : a ≠ b := fun he => by subst he; exact lt_irrefl _ h
      exact absurd (eq_of_pair_sublists_of_nodup hnd hab hstable) hne
  · simp [get_sorted_movies, List.mergeSort, List.merge]
    norm_num

/-- Witness for C8 at the three-movie example. -/
theorem get_sorted_movies_spec_witness :
    get_sorted_movies [("X", ⟨1999, 5, none, none⟩), ("Y", ⟨2005, 8, none, none⟩),
        ("Z", ⟨2001, 8, none, none⟩)]
      = [("Y", ⟨2005, 8, none, none⟩), ("Z", ⟨2001, 8, none, none⟩),
        ("X", ⟨1999, 5, none, none⟩)] :=
  (get_sorted_movies_spec [("X", ⟨1999, 5, none, none⟩),
    ("Y", ⟨2005, 8, none, none⟩), ("Z", ⟨2001, 8, none, none⟩)]
    (pairwise_title_lt_of_data (by decide))).2.2.2

end MovieProject
